import Mathlib

/-!
Shallow embedding of the SARIF → Bitbucket report transformation engine
(`src/index.js` of sarif-to-bb-token).  Pure functions of the JavaScript
source are translated into executable Lean definitions; the fallible access
to the (possibly absent) rule catalog is rendered with `Except`.

Modelling conventions:
* JavaScript strings are Lean `String`s; character-level operations
  (`slice`, `lastIndexOf`, regex replaces over literal character classes)
  are carried out on `String.data : List Char`.  JS string indices are
  UTF-16 units; for the inputs relevant here (ASCII) this coincides with
  `Char` counting.
* `String.prototype.trim` removes Unicode whitespace; the model trims the
  common whitespace characters (space, tab, CR, LF), which is faithful for
  every input considered in the development.
* `uuidv4()` produces a fresh opaque identifier per finding; it is modelled
  by the finding's index in the results array (fresh per element, opaque to
  every other operation).
* `Array.prototype.sort` is guaranteed stable by the ECMAScript
  specification; it is modelled by the stable `List.insertionSort`.
* A JS object used as a string-keyed dictionary is modelled by an
  association list together with a lookup function whose semantics match
  property access (`rulesAsMap` prepends, so lookup finds the latest
  binding); a JS `Map` (insertion-ordered, `set` overwrites in place) is
  modelled by `upsert` below.
-/

/-- The four severity strings produced by `inferSeverity` in src/index.js. -/
inductive Severity where
  | CRITICAL
  | HIGH
  | MEDIUM
  | LOW
deriving DecidableEq, Repr

/-- Index of a severity in the array literal
`["CRITICAL", "HIGH", "MEDIUM", "LOW"]` used by the sort comparator
(src/index.js lines 174-178). -/
def sevRank : Severity → Nat
  | Severity.CRITICAL => 0
  | Severity.HIGH => 1
  | Severity.MEDIUM => 2
  | Severity.LOW => 3

/-- Whitespace test used to model `String.prototype.trim`. -/
def isWS (c : Char) : Bool :=
  c == '\x20' || c == '\t' || c == '\n' || c == '\r'

/-- Model of `String.prototype.trim` on character lists. -/
def trimChars (l : List Char) : List Char :=
  ((l.dropWhile isWS).reverse.dropWhile isWS).reverse

/-- `slice(0, lastIndexOf(" "))`: everything strictly before the last
space of `l` (meaningful when `l` contains a space). -/
def cutBeforeLastSpace (l : List Char) : List Char :=
  (((l.reverse).dropWhile (fun c => !(c == '\x20'))).drop 1).reverse

/-- `smartSummary` from src/index.js lines 55-76: falsy input gives `""`;
otherwise trim, return unchanged when at most 450 characters, else cut to
450 characters, roll back to the last space when one exists, and append
an ellipsis. -/
def smartSummary (text : String) : String :=
  if text.data.isEmpty then ""
  else
    let t := trimChars text.data
    if t.length ≤ 450 then String.mk t
    else
      let cut := t.take 450
      let cut := if cut.contains '\x20' then cutBeforeLastSpace cut else cut
      String.mk (cut ++ ['.', '.', '.'])

/-- `p.replace(/\\/g, "/")`: every backslash becomes a forward slash. -/
def replaceBackslashes (l : List Char) : List Char :=
  l.map (fun c => if c == '\\' then '/' else c)

/-- `p.replace(/^file:\/\//, "")`: strip one leading `file://`. -/
def stripFileScheme (l : List Char) : List Char :=
  if ("file://".data).isPrefixOf l then l.drop 7 else l

/-- `p.replace(/^\/+/, "")`: strip all leading forward slashes. -/
def dropLeadingSlashes (l : List Char) : List Char :=
  l.dropWhile (fun c => c == '/')

/-- `normalizePath` from src/index.js lines 26-49.  The input is the
optional location URI (absent or empty gives the sentinel `"unknown"`);
`cwd` is `process.cwd()`. -/
def normalizePath (cwd : String) (p : Option String) : String :=
  match p with
  | none => "unknown"
  | some s =>
    if s.data.isEmpty then "unknown"
    else
      let l := replaceBackslashes s.data
      let l := stripFileScheme l
      let l := dropLeadingSlashes l
      let cwdL := replaceBackslashes cwd.data
      let l := if cwdL.isPrefixOf l then dropLeadingSlashes (l.drop cwdL.length) else l
      String.mk (trimChars l)

/-- Substring test: does `pat` occur contiguously inside `hay`?  Models
`/(k1|k2|...)/.test(s)` for regexes that are alternations of literals. -/
def containsSub : List Char → List Char → Bool
  | [], pat => pat.isEmpty
  | h :: t, pat => pat.isPrefixOf (h :: t) || containsSub t pat

/-- Literal fragments of the CRITICAL regex in src/index.js line 86. -/
def criticalKeywords : List String :=
  ["rce", "remote code", "command injection", "prototype pollution",
   "sql injection", "path traversal", "arbitrary file write", "takeover"]

/-- Literal fragments of the HIGH regex in src/index.js line 90
(`cross[- ]site` expands to its two literal alternatives). -/
def highKeywords : List String :=
  ["csrf", "xss", "cross-site", "cross site", "auth bypass", "authorization",
   "hardcoded", "jwt", "token", "insecure deserialization", "open redirect"]

/-- Literal fragments of the MEDIUM regex in src/index.js line 94. -/
def mediumKeywords : List String :=
  ["missing integrity", "weak crypt", "md5", "sha1", "audit",
   "insecure configuration", "skip-tls", "insecure"]

/-- `inferSeverity` from src/index.js lines 82-99: lowercase the
concatenation `ruleId + " " + text` and test the three keyword classes in
order; LOW is the default. -/
def inferSeverity (ruleId text : String) : Severity :=
  let s := (ruleId ++ " " ++ text).data.map Char.toLower
  if criticalKeywords.any (fun p => containsSub s p.data) then Severity.CRITICAL
  else if highKeywords.any (fun p => containsSub s p.data) then Severity.HIGH
  else if mediumKeywords.any (fun p => containsSub s p.data) then Severity.MEDIUM
  else Severity.LOW

/-- A SARIF rule: id plus optional description texts (`fullDescription.text`
and `shortDescription.text` collapsed to optional strings). -/
structure Rule where
  id : String
  fullDescription : Option String
  shortDescription : Option String
deriving DecidableEq, Repr

/-- `region` of a physical location: optional start and end lines. -/
structure Region where
  startLine : Option Nat
  endLine : Option Nat
deriving DecidableEq, Repr

/-- `artifactLocation` with its optional `uri`. -/
structure ArtifactLocation where
  uri : Option String
deriving DecidableEq, Repr

/-- `physicalLocation` with optional artifact location and region. -/
structure PhysicalLocation where
  artifactLocation : Option ArtifactLocation
  region : Option Region
deriving DecidableEq, Repr

/-- One entry of `result.locations`. -/
structure SarifLocation where
  physicalLocation : Option PhysicalLocation
deriving DecidableEq, Repr

/-- One SARIF result: rule id, optional `message.text`, locations. -/
structure SarifResult where
  ruleId : String
  message : Option String
  locations : List SarifLocation
deriving DecidableEq, Repr

/-- The first run of a report, reduced to the fields the engine reads:
`tool.driver.rules` (possibly absent) and `results`. -/
structure Run where
  rules : Option (List Rule)
  results : List SarifResult
deriving DecidableEq, Repr

/-- `rulesAsMap` from src/index.js lines 126-127: reduce the catalog into
a string-keyed dictionary where a later binding for the same id overrides
an earlier one.  The spread-and-override object build is modelled by
prepending, so that lookup (first match) finds the latest binding. -/
def rulesAsMap (rules : List Rule) : List (String × Rule) :=
  rules.foldl (fun m rule => (rule.id, rule) :: m) []

/-- Property access `rulesMap[id]` on the dictionary built by `rulesAsMap`. -/
def ruleLookup (m : List (String × Rule)) (k : String) : Option Rule :=
  (m.find? (fun p => p.1 == k)).map Prod.snd

/-- `getRuleText` from src/index.js lines 129-137:
`rule?.fullDescription?.text ?? rule?.shortDescription?.text ??
result.message?.text ?? ""`. -/
def getRuleText (result : SarifResult) (rulesMap : List (String × Rule)) : String :=
  let rule := ruleLookup rulesMap result.ruleId
  ((((rule.bind Rule.fullDescription).or
      (rule.bind Rule.shortDescription)).or
      result.message)).getD ""

/-- The optional chain
`result.locations?.[0]?.physicalLocation?.artifactLocation?.uri`. -/
def resultUri (r : SarifResult) : Option String :=
  (((r.locations.head?.bind SarifLocation.physicalLocation).bind
      PhysicalLocation.artifactLocation).bind ArtifactLocation.uri)

/-- The optional chain `result.locations?.[0]?.physicalLocation?.region`. -/
def firstRegion (r : SarifResult) : Option Region :=
  ((r.locations.head?.bind SarifLocation.physicalLocation).bind
      PhysicalLocation.region)

/-- The Bitbucket ISSUE record built per finding in src/index.js
lines 153-164 (`Annotation` in the spec's data model; `external_id` models
`uuidv4()` as the finding's index, fresh per element). -/
structure Annot where
  external_id : Nat
  annotation_type : String
  severity : Severity
  title : String
  summary : String
  message : String
  path : String
  line : Nat
  ruleId : String
deriving DecidableEq, Repr

/-- The object literal of src/index.js lines 153-164: one annotation per
raw finding. -/
def mapResult (cwd : String) (rulesMap : List (String × Rule)) (idx : Nat)
    (result : SarifResult) : Annot :=
  let fullText := getRuleText result rulesMap
  { external_id := idx
    annotation_type := "ISSUE"
    severity := inferSeverity result.ruleId fullText
    title := smartSummary fullText
    summary := smartSummary fullText
    message := fullText
    path := normalizePath cwd (resultUri result)
    line := ((firstRegion result).bind Region.startLine).getD 1
    ruleId := result.ruleId }

/-- `items` of `mapSarif` (src/index.js line 145): map every raw result. -/
def annotItems (cwd : String) (rules : List Rule) (results : List SarifResult) :
    List Annot :=
  (results.enum).map (fun p => mapResult cwd (rulesAsMap rules) p.1 p.2)

/-- The template-literal dedup key of src/index.js line 170. -/
def dedupKey (a : Annot) : String :=
  a.ruleId ++ "_" ++ a.path ++ "_" ++ toString a.line

/-- `Map.prototype.set` on an insertion-ordered map: overwrite in place
when the key exists, append otherwise. -/
def upsert (m : List (String × Annot)) (k : String) (v : Annot) :
    List (String × Annot) :=
  if m.any (fun p => p.1 == k) then
    m.map (fun p => if p.1 == k then (k, v) else p)
  else m ++ [(k, v)]

/-- One `unique.set(key, i)` step of src/index.js lines 169-171. -/
def dedupStep (m : List (String × Annot)) (i : Annot) : List (String × Annot) :=
  upsert m (dedupKey i) i

/-- The populated `unique` map after the forEach of src/index.js. -/
def dedupMap (items : List Annot) : List (String × Annot) :=
  items.foldl dedupStep []

/-- `[...unique.values()]`: the deduplicated annotation sequence. -/
def dedupAnnots (items : List Annot) : List Annot :=
  (dedupMap items).map Prod.snd

/-- Lookup in the insertion-ordered map (`Map.prototype.get`). -/
def lookupA (m : List (String × Annot)) (k : String) : Option Annot :=
  (m.find? (fun p => p.1 == k)).map Prod.snd

/-- The sort comparator of src/index.js lines 174-178 as a relation:
ascending index in `["CRITICAL", "HIGH", "MEDIUM", "LOW"]`. -/
def annLE (a b : Annot) : Prop :=
  sevRank a.severity ≤ sevRank b.severity

instance : DecidableRel annLE := fun a b => Nat.decLe _ _

instance : IsTotal Annot annLE := ⟨fun a b => Nat.le_total _ _⟩

instance : IsTrans Annot annLE := ⟨fun _ _ _ => Nat.le_trans⟩

/-- `.sort(comparator)` of src/index.js line 174: ECMAScript sort is
stable, modelled by the stable insertion sort. -/
def sortBySeverity (l : List Annot) : List Annot :=
  l.insertionSort annLE

/-- `mapSarif`'s body once the rule catalog is known to be present:
map, deduplicate, sort (src/index.js lines 142-179). -/
def mapSarifOk (cwd : String) (rules : List Rule) (results : List SarifResult) :
    List Annot :=
  sortBySeverity (dedupAnnots (annotItems cwd rules results))

/-- `mapSarif` from src/index.js: reading `.rules` off the driver and
calling `rules.reduce` throws a TypeError when the catalog is absent. -/
def mapSarif (cwd : String) (run : Run) : Except String (List Annot) :=
  match run.rules with
  | none => Except.error "TypeError: rules.reduce called on undefined"
  | some rules => Except.ok (mapSarifOk cwd rules run.results)

/-- `counts[s]` of `buildDetails` (src/index.js lines 184-187). -/
def countSev (vulns : List Annot) (s : Severity) : Nat :=
  vulns.countP (fun v => v.severity == s)

/-- `highest` of `buildDetails` (src/index.js lines 189-192). -/
def highestOf (vulns : List Annot) : Severity :=
  if 0 < countSev vulns Severity.CRITICAL then Severity.CRITICAL
  else if 0 < countSev vulns Severity.HIGH then Severity.HIGH
  else if 0 < countSev vulns Severity.MEDIUM then Severity.MEDIUM
  else Severity.LOW

/-- The sequential reassignments of `resultStatus` in src/index.js
lines 219-225, as a function of the two policy flags and `highest`. -/
def resultStatus (failOnHigh failOnCritical : Bool) (highest : Severity) : String :=
  let r := "PASSED"
  let r := if highest == Severity.CRITICAL then "FAILED" else r
  let r := if failOnHigh && (highest == Severity.HIGH || highest == Severity.CRITICAL)
    then "FAILED" else r
  if failOnCritical && (highest == Severity.CRITICAL) then "FAILED" else r

/-- Verdict of a deduplicated, sorted annotation sequence (pre-truncation),
as computed by `sarifToBitBucket` (src/index.js lines 216-225). -/
def verdictOf (failOnHigh failOnCritical : Bool) (vulns : List Annot) : String :=
  resultStatus failOnHigh failOnCritical (highestOf vulns)

/-- Default of the `--max-annotations` flag (src/index.js line 21). -/
def defaultMaxAnnotations : Nat := 100

/-- The truncation step of src/index.js lines 227-229. -/
def truncateAnns (maxAnn : Nat) (vulns : List Annot) : List Annot :=
  if vulns.length > maxAnn then vulns.take maxAnn else vulns

/-! ### Concrete sample inputs used by witnesses and counterexamples -/

/-- A finding whose text matches the HIGH keyword class only. -/
def resXss : SarifResult :=
  ⟨"js/xss", some "reflected xss",
    [⟨some ⟨some ⟨some "src/a.js"⟩, some ⟨some 3, none⟩⟩⟩]⟩

/-- A finding with rule id `a_b`, path `c`, line 1. -/
def resA : SarifResult :=
  ⟨"a_b", some "m one", [⟨some ⟨some ⟨some "c"⟩, some ⟨some 1, none⟩⟩⟩]⟩

/-- A finding with rule id `a`, path `b_c`, line 1. -/
def resB : SarifResult :=
  ⟨"a", some "m two", [⟨some ⟨some ⟨some "b_c"⟩, some ⟨some 1, none⟩⟩⟩]⟩

/-- A finding whose region carries both a start line (2) and a distinct
end line (5). -/
def resEnd : SarifResult :=
  ⟨"r1", some "msg", [⟨some ⟨some ⟨some "f.js"⟩, some ⟨some 2, some 5⟩⟩⟩]⟩

/-- A finding with no locations at all (the optional chain to the region
yields nothing, so the line must fall back to 1). -/
def resNoLoc : SarifResult :=
  ⟨"r2", some "msg", []⟩

/-- Invariant of the insertion-ordered dedup map: keys are pairwise
distinct and every entry's key is the dedup key of its value. -/
def GoodMap (m : List (String × Annot)) : Prop :=
  (m.map Prod.fst).Nodup ∧ ∀ p ∈ m, p.1 = dedupKey p.2

set_option maxRecDepth 40000

/-! ### Helper lemmas -/

theorem keys_map_replace (k : String) (v : Annot) :
    ∀ m : List (String × Annot),
      ((m.map (fun p => if p.1 == k then (k, v) else p)).map Prod.fst) = m.map Prod.fst := by
  intro m
  induction m with
  | nil => rfl
  | cons p rest ih =>
    rw [List.map_cons, List.map_cons, List.map_cons, ih]
    congr 1
    by_cases h : p.1 == k
    · rw [if_pos h]; exact (eq_of_beq h).symm
    · rw [if_neg h]

theorem mem_upsert (m : List (String × Annot)) (k : String) (v : Annot)
    (p : String × Annot) (hp : p ∈ upsert m k v) : p ∈ m ∨ p = (k, v) := by
  unfold upsert at hp
  by_cases h : m.any (fun q => q.1 == k)
  · rw [if_pos h] at hp
    rcases List.mem_map.1 hp with ⟨q, hq, he⟩
    by_cases h2 : q.1 == k
    · right; rw [← he, if_pos h2]
    · left; rw [← he, if_neg h2]; exact hq
  · rw [if_neg h] at hp
    rcases List.mem_append.1 hp with h1 | h1
    · left; exact h1
    · right; simpa using h1

theorem goodMap_dedupStep (m : List (String × Annot)) (i : Annot)
    (hg : GoodMap m) : GoodMap (dedupStep m i) := by
  obtain ⟨hn, hkv⟩ := hg
  unfold dedupStep upsert
  by_cases h : m.any (fun q => q.1 == dedupKey i)
  · rw [if_pos h]
    refine ⟨?_, ?_⟩
    · rw [keys_map_replace]; exact hn
    · intro p hp
      rcases List.mem_map.1 hp with ⟨q, hq, he⟩
      by_cases h2 : q.1 == dedupKey i
      · rw [← he, if_pos h2]
      · rw [← he, if_neg h2]; exact hkv q hq
  · rw [if_neg h]
    have h0 : (m.any (fun q => q.1 == dedupKey i)) = false := Bool.eq_false_iff.mpr h
    refine ⟨?_, ?_⟩
    · rw [List.map_append]
      refine List.Nodup.append hn (List.nodup_singleton _) ?_
      intro a ha hb
      have hb1 : a = dedupKey i := by simpa using hb
      rcases List.mem_map.1 ha with ⟨q, hq, he⟩
      have h3 := List.any_eq_false.1 h0 q hq
      apply h3
      simp only [beq_iff_eq]
      rw [he, hb1]
    · intro p hp
      rcases List.mem_append.1 hp with h1 | h1
      · exact hkv p h1
      · have h2 : p = (dedupKey i, i) := by simpa using h1
        rw [h2]

theorem goodMap_foldl (items : List Annot) :
    ∀ m : List (String × Annot), GoodMap m → GoodMap (items.foldl dedupStep m) := by
  induction items with
  | nil => intro m hm; exact hm
  | cons i rest ih =>
    intro m hm
    exact ih (dedupStep m i) (goodMap_dedupStep m i hm)

theorem goodMap_dedupMap (items : List Annot) : GoodMap (dedupMap items) :=
  goodMap_foldl items [] ⟨List.nodup_nil, fun p hp => absurd hp (List.not_mem_nil p)⟩

theorem find?_replace (k : String) (v : Annot) :
    ∀ m : List (String × Annot), m.any (fun q => q.1 == k) = true →
      (m.map (fun p => if p.1 == k then (k, v) else p)).find? (fun p => p.1 == k)
        = some (k, v) := by
  intro m
  induction m with
  | nil => intro h; simp at h
  | cons p rest ih =>
    intro h
    rw [List.map_cons]
    by_cases h2 : p.1 == k
    · rw [if_pos h2]
      simp only [List.find?_cons, beq_self_eq_true]
    · have h3 : rest.any (fun q => q.1 == k) = true := by
        rcases (by simpa using h : (p.1 == k) = true ∨ rest.any (fun q => q.1 == k) = true)
          with h4 | h4
        · exact absurd h4 h2
        · exact h4
      have hd : (p.1 == k) = false := Bool.eq_false_iff.mpr h2
      rw [if_neg h2]
      simp only [List.find?_cons, hd]
      exact ih h3

theorem find?_replace_ne (k : String) (v : Annot) (k2 : String) (hne : k2 ≠ k) :
    ∀ m : List (String × Annot),
      (m.map (fun p => if p.1 == k then (k, v) else p)).find? (fun p => p.1 == k2)
        = m.find? (fun p => p.1 == k2) := by
  intro m
  induction m with
  | nil => rfl
  | cons p rest ih =>
    rw [List.map_cons]
    by_cases h2 : p.1 == k
    · have hp1 : p.1 = k := eq_of_beq h2
      have hkne : ((k : String) == k2) = false := by
        simp only [beq_eq_false_iff_ne, ne_eq]; exact fun h => hne h.symm
      have hpne : (p.1 == k2) = false := by
        rw [hp1]; exact hkne
      rw [if_pos h2]
      simp only [List.find?_cons, hkne, hpne]
      exact ih
    · rw [if_neg h2]
      cases h3 : (p.1 == k2) with
      | true => simp only [List.find?_cons, h3]
      | false => simp only [List.find?_cons, h3]; exact ih

theorem lookupA_upsert_self (m : List (String × Annot)) (k : String) (v : Annot) :
    lookupA (upsert m k v) k = some v := by
  unfold lookupA upsert
  by_cases h : m.any (fun q => q.1 == k)
  · rw [if_pos h, find?_replace k v m h]; rfl
  · have h0 : (m.any (fun q => q.1 == k)) = false := Bool.eq_false_iff.mpr h
    rw [if_neg h, List.find?_append]
    have h1 : m.find? (fun p => p.1 == k) = none := by
      rw [List.find?_eq_none]
      intro x hx
      have h2 := List.any_eq_false.1 h0 x hx
      exact h2
    rw [h1]
    simp only [List.find?_cons, beq_self_eq_true]
    rfl

theorem lookupA_upsert_ne (m : List (String × Annot)) (k : String) (v : Annot)
    (k2 : String) (hne : k2 ≠ k) : lookupA (upsert m k v) k2 = lookupA m k2 := by
  unfold lookupA upsert
  by_cases h : m.any (fun q => q.1 == k)
  · rw [if_pos h, find?_replace_ne k v k2 hne]
  · rw [if_neg h, List.find?_append]
    have hkne : ((k : String) == k2) = false := by
      simp only [beq_eq_false_iff_ne, ne_eq]; exact fun h2 => hne h2.symm
    have h1 : ([((k, v) : String × Annot)].find? (fun p => p.1 == k2)) = none := by
      simp only [List.find?_cons, hkne]; rfl
    rw [h1, Option.or_none]

theorem getLast?_cons_or {α : Type} (a : α) (l : List α) :
    (a :: l).getLast? = (l.getLast?).or (some a) := by
  cases l with
  | nil => rfl
  | cons b t =>
    rw [List.getLast?_cons_cons]
    have h : (b :: t).getLast?.isSome := List.getLast?_isSome.2 (by simp)
    cases hg : (b :: t).getLast? with
    | none => rw [hg] at h; simp at h
    | some x => rfl

theorem filter_dedup_cons (k : String) (i : Annot) (rest : List Annot) :
    (i :: rest).filter (fun j => dedupKey j == k) =
      if dedupKey i == k then i :: rest.filter (fun j => dedupKey j == k)
      else rest.filter (fun j => dedupKey j == k) :=
  List.filter_cons

theorem filter_sev_cons (s : Severity) (y : Annot) (ys : List Annot) :
    (y :: ys).filter (fun a => a.severity == s) =
      if y.severity == s then y :: ys.filter (fun a => a.severity == s)
      else ys.filter (fun a => a.severity == s) :=
  List.filter_cons

theorem lookupA_foldl (k : String) :
    ∀ (items : List Annot) (m : List (String × Annot)),
      lookupA (items.foldl dedupStep m) k =
        ((items.filter (fun i => dedupKey i == k)).getLast?).or (lookupA m k) := by
  intro items
  induction items with
  | nil =>
    intro m
    simp only [List.foldl_nil, List.filter_nil, List.getLast?_nil, Option.none_or]
  | cons i rest ih =>
    intro m
    rw [List.foldl_cons, ih]
    unfold dedupStep
    by_cases h : dedupKey i == k
    · rw [filter_dedup_cons, if_pos h, getLast?_cons_or]
      have hk : dedupKey i = k := eq_of_beq h
      cases hg : (rest.filter (fun i => dedupKey i == k)).getLast? with
      | none =>
        rw [Option.none_or, Option.none_or, ← hk, lookupA_upsert_self]
        rfl
      | some v => rfl
    · have hne : k ≠ dedupKey i := by
        intro he
        have hd : (dedupKey i == k) = false := Bool.eq_false_iff.mpr h
        rw [he, beq_self_eq_true] at hd
        cases hd
      rw [filter_dedup_cons, if_neg h, lookupA_upsert_ne m (dedupKey i) i k hne]

theorem lookupA_dedupMap (items : List Annot) (k : String) :
    lookupA (dedupMap items) k = (items.filter (fun i => dedupKey i == k)).getLast? := by
  unfold dedupMap
  rw [lookupA_foldl]
  rw [show lookupA [] k = none from rfl, Option.or_none]

theorem find?_eq_some_of_mem (k : String) :
    ∀ (m : List (String × Annot)) (p : String × Annot), p ∈ m → (m.map Prod.fst).Nodup →
      p.1 = k → m.find? (fun q => q.1 == k) = some p := by
  intro m
  induction m with
  | nil => intro p hp _ _; cases hp
  | cons q rest ih =>
    intro p hp hn hk
    rw [List.map_cons] at hn
    have hn2 := List.nodup_cons.1 hn
    rcases List.mem_cons.1 hp with he | hm
    · have hq : (q.1 == k) = true := by rw [← he, hk]; exact beq_self_eq_true k
      simp only [List.find?_cons, hq]
      rw [he]
    · cases hqk : (q.1 == k) with
      | true =>
        exfalso
        have hq1 : q.1 = k := eq_of_beq hqk
        apply hn2.1
        rw [hq1, ← hk]
        exact List.mem_map_of_mem Prod.fst hm
      | false =>
        simp only [List.find?_cons, hqk]
        exact ih p hm hn2.2 hk

theorem mem_foldl_dedupStep :
    ∀ (items : List Annot) (m : List (String × Annot)) (p : String × Annot),
      p ∈ items.foldl dedupStep m → p ∈ m ∨ p.2 ∈ items := by
  intro items
  induction items with
  | nil => intro m p hp; left; exact hp
  | cons i rest ih =>
    intro m p hp
    rw [List.foldl_cons] at hp
    rcases ih (dedupStep m i) p hp with h1 | h1
    · rcases mem_upsert m (dedupKey i) i p h1 with h2 | h2
      · left; exact h2
      · right; rw [h2]; exact List.mem_cons_self i rest
    · right; exact List.mem_cons_of_mem i h1

theorem mem_dedupAnnots_sub (items : List Annot) (a : Annot)
    (ha : a ∈ dedupAnnots items) : a ∈ items := by
  unfold dedupAnnots at ha
  rcases List.mem_map.1 ha with ⟨p, hp, he⟩
  rcases mem_foldl_dedupStep items [] p hp with h1 | h1
  · cases h1
  · rw [← he]; exact h1

theorem filter_orderedInsert_sev (s : Severity) (x : Annot) :
    ∀ l : List Annot,
      (List.orderedInsert annLE x l).filter (fun a => a.severity == s) =
        if x.severity == s then x :: l.filter (fun a => a.severity == s)
        else l.filter (fun a => a.severity == s) := by
  intro l
  induction l with
  | nil =>
    simp only [List.orderedInsert, List.filter_cons, List.filter_nil]
  | cons y ys ih =>
    simp only [List.orderedInsert]
    by_cases h : annLE x y
    · rw [if_pos h, List.filter_cons]
    · rw [if_neg h, filter_sev_cons, ih, filter_sev_cons]
      by_cases hx : x.severity == s
      · by_cases hy : y.severity == s
        · exfalso
          apply h
          have hx1 : x.severity = s := eq_of_beq hx
          have hy1 : y.severity = s := eq_of_beq hy
          unfold annLE
          rw [hx1, hy1]
        · rw [if_neg hy, if_pos hx, if_pos hx, if_neg hy]
      · rw [if_neg hx, if_neg hx]

theorem filter_insertionSort_sev (s : Severity) :
    ∀ l : List Annot,
      (List.insertionSort annLE l).filter (fun a => a.severity == s) =
        l.filter (fun a => a.severity == s) := by
  intro l
  induction l with
  | nil => rfl
  | cons a l ih =>
    show (List.orderedInsert annLE a (List.insertionSort annLE l)).filter _ = _
    rw [filter_orderedInsert_sev, ih, filter_sev_cons]

/-! ### Claim theorems -/

/-- C9: the truncation step of the report assembler returns exactly the
first `min n m` elements of the sorted sequence in their existing order:
it equals `take m`, its length is `min n m`, and appending the dropped
suffix restores the input, so it removes only a suffix and leaves every
surviving element unchanged. -/
theorem truncateAnns_is_take (maxAnn : Nat) (l : List Annot) :
    truncateAnns maxAnn l = l.take maxAnn
    ∧ (truncateAnns maxAnn l).length = min l.length maxAnn
    ∧ truncateAnns maxAnn l ++ l.drop maxAnn = l := by
  have h1 : truncateAnns maxAnn l = l.take maxAnn := by
    unfold truncateAnns
    by_cases h : l.length > maxAnn
    · rw [if_pos h]
    · rw [if_neg h]
      exact (List.take_of_length_le (Nat.le_of_not_lt h)).symm
  refine ⟨h1, ?_, ?_⟩
  · rw [h1, List.length_take, Nat.min_comm]
  · rw [h1, List.take_append_drop]

/-- C2 (code bug evidence): `smartSummary` on a 451-character spaceless
input returns a 453-character string, exceeding the documented 450-character
bound: the truncation branch appends a three-character ellipsis after
cutting to 450. -/
theorem smartSummary_overflow :
    (smartSummary (String.mk (List.replicate 451 'a'))).length = 453 ∧ 450 < 453 := by
  constructor
  · decide
  · decide

/-- C3 (code bug evidence): `normalizePath` strips the leading slashes of
the URI before comparing against the working directory, which keeps its
own leading slash, so the working-directory prefix removal never fires for
an absolute Unix cwd: the spec scenario input yields
`"home/ci/repo/src/app.js"` instead of `"src/app.js"`. -/
theorem normalizePath_cwd_not_stripped :
    normalizePath "/home/ci/repo" (some "file:///home/ci/repo/src/app.js")
      = "home/ci/repo/src/app.js"
    ∧ ("home/ci/repo/src/app.js" : String) ≠ "src/app.js" := by
  constructor
  · decide
  · decide

/-- C7 (counterexample): the URI `"/"` is a non-empty string whose
normalized path is the empty string, not the sentinel, refuting the claim
that every non-empty URI yields a non-empty path. -/
theorem normalizePath_slash_empty :
    normalizePath "/home/ci/repo" (some "/") = ""
    ∧ ("/" : String) ≠ "" ∧ ("" : String) ≠ "unknown" := by
  refine ⟨by decide, by decide, by decide⟩

/-- C7 (amended): the sentinel `"unknown"` is produced exactly for an
absent or empty URI; a non-empty URI can still normalize to the empty
string (e.g. a bare slash), so the emitted path is not always non-empty. -/
theorem normalizePath_sentinel :
    (∀ cwd : String, normalizePath cwd none = "unknown"
      ∧ normalizePath cwd (some "") = "unknown")
    ∧ (∃ s : String, s ≠ "" ∧ normalizePath "/home/ci/repo" (some s) = "") := by
  constructor
  · intro cwd
    exact ⟨rfl, rfl⟩
  · exact ⟨"/", by decide, by decide⟩

/-- C6 (counterexample): a first run with no rule catalog makes the
transformation fail (the reduce over the absent catalog throws), rather
than completing with an empty mapping. -/
theorem missing_catalog_errors :
    mapSarif "/w" ⟨none, []⟩
      = Except.error "TypeError: rules.reduce called on undefined" := rfl

/-- C6 (amended): an **empty** rule catalog yields the empty mapping, and
for duplicate rule ids the last occurrence wins: looking up any id in the
built index returns the last catalog entry carrying that id (an absent
catalog, by contrast, is a fatal error — see the counterexample). -/
theorem rulesAsMap_empty_and_last_wins :
    rulesAsMap [] = []
    ∧ ∀ (rules : List Rule) (k : String),
        ruleLookup (rulesAsMap rules) k = (rules.filter (fun r => r.id == k)).getLast? := by
  refine ⟨rfl, ?_⟩
  intro rules k
  induction rules using List.reverseRecOn with
  | nil => rfl
  | append_singleton l r ih =>
    have h1 : rulesAsMap (l ++ [r]) = (r.id, r) :: rulesAsMap l := by
      unfold rulesAsMap
      rw [List.foldl_append]
      rfl
    rw [h1, List.filter_append]
    cases h : (r.id == k) with
    | true =>
      have h2 : ruleLookup ((r.id, r) :: rulesAsMap l) k = some r := by
        unfold ruleLookup
        simp only [List.find?_cons, h]
        rfl
      rw [h2]
      simp only [List.filter_cons, h, if_true, List.filter_nil, List.getLast?_concat]
    | false =>
      have h2 : ruleLookup ((r.id, r) :: rulesAsMap l) k = ruleLookup (rulesAsMap l) k := by
        unfold ruleLookup
        simp only [List.find?_cons, h]
      rw [h2, ih]
      simp only [List.filter_cons, h, Bool.false_eq_true, if_false, List.filter_nil, List.append_nil]

/-- C5 (amended): for every raw finding, the emitted annotation's line
number is the first location's region **start**-line when present —
whatever the end-line is, present or not — and 1 when the optional chain
to a start-line yields nothing (no location, no region, or no start-line). -/
theorem mapResult_line_startLine (cwd : String) (rulesMap : List (String × Rule))
    (idx : Nat) (r : SarifResult) :
    (∀ (reg : Region) (n : Nat), firstRegion r = some reg → reg.startLine = some n →
        (mapResult cwd rulesMap idx r).line = n)
    ∧ ((firstRegion r).bind Region.startLine = none →
        (mapResult cwd rulesMap idx r).line = 1) := by
  constructor
  · intro reg n h1 h2
    show ((firstRegion r).bind Region.startLine).getD 1 = n
    rw [h1]
    show (reg.startLine).getD 1 = n
    rw [h2]
    rfl
  · intro h
    show ((firstRegion r).bind Region.startLine).getD 1 = 1
    rw [h]
    rfl

/-- Witness for C5's amended theorem: the start-line case at a concrete
finding whose region is `startLine 2, endLine 5`, and the default case at
a concrete finding with no location. -/
theorem mapResult_line_startLine_witness :
    (mapResult "/w" [] 0 resEnd).line = 2 ∧ (mapResult "/w" [] 0 resNoLoc).line = 1 :=
  ⟨(mapResult_line_startLine "/w" [] 0 resEnd).1 ⟨some 2, some 5⟩ 2 rfl rfl,
   (mapResult_line_startLine "/w" [] 0 resNoLoc).2 rfl⟩

/-- C5 (counterexample): a finding with start line 2 and end line 5 is
emitted with line 2, not the end line 5 the claim prescribes. -/
theorem mapResult_line_ignores_endLine :
    (mapResult "/w" [] 0 resEnd).line = 2 ∧ (2 : Nat) ≠ 5 := by
  refine ⟨by decide, by decide⟩

/-- C1 (counterexample): a run whose only finding is classified HIGH gets
the default verdict PASSED, not FAILED. -/
theorem default_verdict_high_passes :
    verdictOf false false (mapSarifOk "/w" [] [resXss]) = "PASSED"
    ∧ (mapSarifOk "/w" [] [resXss]).any (fun a => a.severity == Severity.HIGH) = true := by
  refine ⟨by decide, by decide⟩

/-- C1 (amended): with both policy flags disabled, the verdict is FAILED
iff the deduplicated annotation sequence contains a CRITICAL annotation;
a HIGH annotation alone leaves the default verdict PASSED. -/
theorem default_verdict_iff_critical (vulns : List Annot) :
    verdictOf false false vulns = "FAILED"
      ↔ ∃ a ∈ vulns, a.severity = Severity.CRITICAL := by
  unfold verdictOf resultStatus
  show (if highestOf vulns == Severity.CRITICAL then "FAILED" else "PASSED") = "FAILED" ↔ _
  constructor
  · intro h
    cases hc : (highestOf vulns == Severity.CRITICAL) with
    | false =>
      rw [hc] at h
      simp only [Bool.false_eq_true, if_false] at h
      exact absurd h (by decide)
    | true =>
      have h1 : highestOf vulns = Severity.CRITICAL := eq_of_beq hc
      by_cases hp : 0 < countSev vulns Severity.CRITICAL
      · unfold countSev at hp
        rcases List.countP_pos_iff.1 hp with ⟨a, ha, hpa⟩
        exact ⟨a, ha, eq_of_beq hpa⟩
      · exfalso
        unfold highestOf at h1
        rw [if_neg hp] at h1
        by_cases h2 : 0 < countSev vulns Severity.HIGH
        · rw [if_pos h2] at h1; cases h1
        · rw [if_neg h2] at h1
          by_cases h3 : 0 < countSev vulns Severity.MEDIUM
          · rw [if_pos h3] at h1; cases h1
          · rw [if_neg h3] at h1; cases h1
  · rintro ⟨a, ha, hs⟩
    have hp : 0 < countSev vulns Severity.CRITICAL := by
      unfold countSev
      refine List.countP_pos_iff.2 ⟨a, ha, ?_⟩
      show (a.severity == Severity.CRITICAL) = true
      rw [hs]
      exact beq_self_eq_true _
    have h1 : highestOf vulns = Severity.CRITICAL := by
      unfold highestOf
      rw [if_pos hp]
    rw [h1]
    rfl

/-- C8: the output of the mapper is sorted by severity rank (CRITICAL
first, i.e. severities are non-increasing under CRITICAL > HIGH > MEDIUM >
LOW), and the sort is stable: for every severity, the subsequence of
annotations of that severity is exactly the one of the deduplicated
sequence, so ties keep their post-deduplication relative order. -/
theorem mapSarifOk_sorted_stable (cwd : String) (rules : List Rule)
    (results : List SarifResult) :
    List.Sorted annLE (mapSarifOk cwd rules results)
    ∧ ∀ s : Severity,
        (mapSarifOk cwd rules results).filter (fun a => a.severity == s)
          = (dedupAnnots (annotItems cwd rules results)).filter (fun a => a.severity == s) := by
  constructor
  · exact List.sorted_insertionSort annLE (dedupAnnots (annotItems cwd rules results))
  · intro s
    exact filter_insertionSort_sev s (dedupAnnots (annotItems cwd rules results))

/-- C10: every annotation produced by the mapper has equal `title` and
`summary` fields — both are the summarization of the same derived text. -/
theorem mapSarifOk_title_eq_summary (cwd : String) (rules : List Rule)
    (results : List SarifResult) :
    ∀ a ∈ mapSarifOk cwd rules results, a.title = a.summary := by
  intro a ha
  have h2 : a ∈ List.insertionSort annLE (dedupAnnots (annotItems cwd rules results)) := ha
  have h1 : a ∈ dedupAnnots (annotItems cwd rules results) :=
    ((List.perm_insertionSort annLE (dedupAnnots (annotItems cwd rules results))).mem_iff).1 h2
  have h3 : a ∈ annotItems cwd rules results := mem_dedupAnnots_sub _ a h1
  rcases List.mem_map.1 h3 with ⟨q, _, he⟩
  rw [← he]
  rfl

/-- Witness for C10 at a concrete run with one finding. -/
theorem mapSarifOk_title_eq_summary_witness :
    (mapResult "/w" (rulesAsMap []) 0 resXss).title
      = (mapResult "/w" (rulesAsMap []) 0 resXss).summary :=
  mapSarifOk_title_eq_summary "/w" [] [resXss]
    (mapResult "/w" (rulesAsMap []) 0 resXss) (by decide)

/-- C4 (amended): the deduplicator collapses annotations by equality of
the underscore-joined key string `ruleId_path_line` (not of the triple
itself): output keys are pairwise distinct, every output annotation is the
**last** input annotation bearing its key (last-write-wins), and every
input key is represented.  Equal triples always collapse, but distinct
triples may also collide when underscores blur the component boundaries. -/
theorem dedupAnnots_joined_key (items : List Annot) :
    ((dedupAnnots items).map dedupKey).Nodup
    ∧ (∀ a ∈ dedupAnnots items,
        a ∈ items
        ∧ (items.filter (fun i => dedupKey i == dedupKey a)).getLast? = some a)
    ∧ (∀ i ∈ items, ∃ a ∈ dedupAnnots items, dedupKey a = dedupKey i) := by
  have hg := goodMap_dedupMap items
  refine ⟨?_, ?_, ?_⟩
  · unfold dedupAnnots
    rw [List.map_map]
    have he : (dedupMap items).map (dedupKey ∘ Prod.snd) = (dedupMap items).map Prod.fst :=
      List.map_congr_left (fun p hp => (hg.2 p hp).symm)
    rw [he]
    exact hg.1
  · intro a ha
    refine ⟨mem_dedupAnnots_sub items a ha, ?_⟩
    rcases List.mem_map.1 (show a ∈ (dedupMap items).map Prod.snd from ha) with ⟨p, hp, he⟩
    have hk : p.1 = dedupKey a := by rw [← he]; exact hg.2 p hp
    have hf := find?_eq_some_of_mem (dedupKey a) (dedupMap items) p hp hg.1 hk
    have hl : lookupA (dedupMap items) (dedupKey a) = some a := by
      unfold lookupA
      rw [hf]
      show some p.2 = some a
      rw [he]
    rw [← lookupA_dedupMap]
    exact hl
  · intro i hi
    have h2 := lookupA_dedupMap items (dedupKey i)
    have hfi : i ∈ items.filter (fun j => dedupKey j == dedupKey i) :=
      List.mem_filter.2 ⟨hi, beq_self_eq_true _⟩
    have hne : items.filter (fun j => dedupKey j == dedupKey i) ≠ [] := by
      intro h0
      rw [h0] at hfi
      cases hfi
    have hsome := List.getLast?_isSome.2 hne
    cases hv : (items.filter (fun j => dedupKey j == dedupKey i)).getLast? with
    | none => rw [hv] at hsome; simp at hsome
    | some v =>
      rw [hv] at h2
      unfold lookupA at h2
      cases hf : (dedupMap items).find? (fun q => q.1 == dedupKey i) with
      | none => rw [hf] at h2; cases h2
      | some p =>
        rw [hf] at h2
        have hpm : p ∈ dedupMap items := List.mem_of_find?_eq_some hf
        have hpk := List.find?_some hf
        refine ⟨p.2, List.mem_map_of_mem Prod.snd hpm, ?_⟩
        have h4 : p.1 = dedupKey p.2 := hg.2 p hpm
        rw [← h4]
        exact eq_of_beq hpk

/-- Witness for C4's amended theorem: on the two colliding sample findings
the surviving annotation is the later one and is the last input with its
key. -/
theorem dedupAnnots_joined_key_witness :
    mapResult "/w" (rulesAsMap []) 1 resB
        ∈ [mapResult "/w" (rulesAsMap []) 0 resA, mapResult "/w" (rulesAsMap []) 1 resB]
    ∧ ([mapResult "/w" (rulesAsMap []) 0 resA,
        mapResult "/w" (rulesAsMap []) 1 resB].filter
          (fun i => dedupKey i == dedupKey (mapResult "/w" (rulesAsMap []) 1 resB))).getLast?
        = some (mapResult "/w" (rulesAsMap []) 1 resB) :=
  (dedupAnnots_joined_key
    [mapResult "/w" (rulesAsMap []) 0 resA, mapResult "/w" (rulesAsMap []) 1 resB]).2.1
    (mapResult "/w" (rulesAsMap []) 1 resB) (by decide)

/-- C4 (counterexample): the findings `resA` and `resB` map to annotations
with distinct triples ("a_b","c",1) and ("a","b_c",1), yet the pipeline
emits a single annotation, refuting "two findings differing in any
component of the triple yield two annotations". -/
theorem dedup_distinct_triples_collide :
    ((annotItems "/w" [] [resA, resB]).map (fun a => (a.ruleId, a.path, a.line))
        = [("a_b", "c", 1), ("a", "b_c", 1)])
    ∧ (mapSarifOk "/w" [] [resA, resB]).length = 1 := by
  refine ⟨by decide, by decide⟩
